import Mathlib

/-!
Shallow embedding of the duplicate-file detection and cleanup engine of
`src/src-tauri/src/file_manager.rs` (drdeeks/Windows-Optimizer).

Paths are modelled as strings; Rust `Path` operations (`starts_with`,
`file_name`, `extension`) are modelled component-wise, matching Rust's
component-based semantics on Windows paths with `\` separators.

Effectful operations are modelled by explicit parameters:
  * `hashFn : String → Except String String` stands for
    `calculate_file_hash` (SHA-256 of the file at a path; may fail with I/O
    error);
  * `osDelete : String → Except String Unit` stands for the
    `powershell Remove-Item` invocation in `safe_delete_file`;
  * `fsRead : String → Option (List Nat)` stands for `tokio::fs::read`
    inside `create_cleanup_backup` (`none` = read failure, skipped entry);
  * Rust panics (out-of-bounds indexing) are modelled as `Option.none`.

The `HashMap` accumulations in `scan_duplicates` are modelled by their
extensional content: the bucket for a key is exactly the subsequence of
inputs with that key (what `entry(k).or_insert_with(Vec::new).push(v)`
builds), with key order determinized (Rust's `HashMap` iteration order is
unspecified).
-/

namespace WinOptimizer

/-- Structure `FileInfo` from file_manager.rs (lines 14-23): one observed file. -/
structure FileInfo where
  path : String
  size : Nat
  modified : Int
  hash : String
  file_type : String
  is_system_file : Bool
  is_critical : Bool
deriving Repr, DecidableEq

/-- Structure `DuplicateGroup` from file_manager.rs (lines 25-32). -/
structure DuplicateGroup where
  hash : String
  size : Nat
  files : List FileInfo
  total_size : Nat
  potential_savings : Nat
deriving Repr, DecidableEq

/-- Structure `CleanupResult` from file_manager.rs (lines 44-51). -/
structure CleanupResult where
  files_removed : Nat
  space_freed : Nat
  errors : List String
  backup_created : Bool
  backup_path : Option String
deriving Repr, DecidableEq

/-- Enumeration `KeepStrategy` from file_manager.rs (lines 536-542). -/
inductive KeepStrategy where
  | KeepNewest
  | KeepOldest
  | KeepInSystem
  | KeepInProgramFiles
deriving Repr, DecidableEq

/-- Split a character list at every occurrence of `sep` (auxiliary for the
path and extension helpers; structural recursion so the kernel can
evaluate it). -/
def splitChars (sep : Char) : List Char → List Char → List (List Char)
  | [], acc => [acc.reverse]
  | c :: cs, acc =>
    if c = sep then acc.reverse :: splitChars sep cs []
    else splitChars sep cs (c :: acc)

/-- Components of a Windows path, split at `\` separators. -/
def pathComponents (p : String) : List String :=
  (splitChars '\\' p.data []).map String.mk

/-- Lower-case a string character by character (model of
`str::to_lowercase` for the ASCII names appearing here). -/
def lowerString (s : String) : String :=
  String.mk (s.data.map Char.toLower)

/-- Rust `Path::starts_with`: component-wise path-prefix test. -/
def pathStartsWith (p pre : String) : Bool :=
  (pathComponents pre).isPrefixOf (pathComponents p)

/-- Rust `Path::file_name`: the final path component. -/
def fileNameOf (p : String) : Option String :=
  (pathComponents p).getLast?

/-- Rust `Path::extension`: the portion of the file name after the final
dot; `none` when there is no dot, or the only dot is leading. -/
def extensionOf (p : String) : Option String :=
  match fileNameOf p with
  | none => none
  | some name =>
    match (splitChars '.' name.data []).map String.mk with
    | [] => none
    | [_] => none
    | first :: rest =>
      if first = "" && rest.length == 1 then none
      else rest.getLast?

/-- Field `FileManager::max_file_size` (line 85): 100 MiB. -/
def max_file_size : Nat := 100 * 1024 * 1024

/-- Function `is_system_directory` (lines 492-496). -/
def is_system_directory (path : String) : Bool :=
  pathStartsWith path "C:\\Windows" ||
  pathStartsWith path "C:\\System Volume Information" ||
  pathStartsWith path "C:\\$Recycle.Bin"

/-- Function `is_system_file` (lines 499-505). -/
def is_system_file (path : String) : Bool :=
  is_system_directory path ||
  (match fileNameOf path with
   | some name =>
     (match name.data with
      | c :: _ => c = '.'
      | [] => false) || name == "desktop.ini" || name == "thumbs.db"
   | none => false)

/-- The `critical_extensions` array (line 509), verbatim: each entry
carries a leading dot, while Rust `Path::extension()` yields the extension
without its dot. -/
def critical_extensions : List String :=
  [".sys", ".dll", ".exe", ".drv", ".ocx"]

/-- The `critical_paths` array (lines 510-514). -/
def critical_paths : List String :=
  ["C:\\Windows\\System32", "C:\\Windows\\SysWOW64", "C:\\Windows\\WinSxS"]

/-- Function `is_critical_file` (lines 508-525): extension membership in
`critical_extensions`, or a `critical_paths` component-prefix. -/
def is_critical_file (path : String) : Bool :=
  (match extensionOf path with
   | some ext => critical_extensions.contains (lowerString ext)
   | none => false) ||
  critical_paths.any (fun cp => pathStartsWith path cp)

/-- Function `get_file_extension` (lines 528-533). -/
def get_file_extension (path : String) : String :=
  lowerString ((extensionOf path).getD "unknown")

/-! ## Duplicate scan pipeline (`scan_duplicates`, lines 90-183)

The Rust code builds two `HashMap`s by `entry(k).push(v)`.  A bucket of
such a map is exactly the subsequence of pushed values whose key is `k`;
we model the maps by that extensional content, listing keys in a
deterministic order (`HashMap` iteration order is unspecified in Rust). -/

/-- Line 126: `filter(|file| file.size > 0)` — empty files are skipped. -/
def positiveFiles (files : List FileInfo) : List FileInfo :=
  files.filter (fun f => decide (0 < f.size))

/-- The bucket of `size_groups` (lines 124-132) for byte size `s`:
all non-empty files of exactly that size, in input order. -/
def sizeBucket (files : List FileInfo) (s : Nat) : List FileInfo :=
  (positiveFiles files).filter (fun f => f.size == s)

/-- The keys of the `size_groups` map. -/
def sizeKeys (files : List FileInfo) : List Nat :=
  ((positiveFiles files).map (fun f => f.size)).dedup

/-- The `size_groups : HashMap<u64, Vec<FileInfo>>` map (lines 124-132). -/
def size_groups (files : List FileInfo) : List (Nat × List FileInfo) :=
  (sizeKeys files).map (fun s => (s, sizeBucket files s))

/-- The files passed to `calculate_file_hash` (lines 137-152): exactly the
members of size buckets with `files.len() > 1`. -/
def hash_candidates (files : List FileInfo) : List FileInfo :=
  ((size_groups files).filter (fun b => decide (1 < b.2.length))).flatMap (fun b => b.2)

/-- The hashed records pushed into `hash_groups` (lines 140-145): each
candidate whose hash computation succeeds, with its `hash` field set. -/
def hash_ok (hashFn : String → Except String String) (files : List FileInfo) :
    List FileInfo :=
  (hash_candidates files).filterMap (fun f =>
    match hashFn f.path with
    | .ok h => some { f with hash := h }
    | .error _ => none)

/-- The per-file hash errors accumulated at line 147. -/
def hash_errors (hashFn : String → Except String String) (files : List FileInfo) :
    List String :=
  (hash_candidates files).filterMap (fun f =>
    match hashFn f.path with
    | .ok _ => none
    | .error e => some ("Failed to hash " ++ f.path ++ ": " ++ e))

/-- The bucket of the `hash_groups` map for hash value `h`. -/
def hashBucket (hashFn : String → Except String String) (files : List FileInfo)
    (h : String) : List FileInfo :=
  (hash_ok hashFn files).filter (fun m => m.hash == h)

/-- The keys of the `hash_groups` map. -/
def hashKeys (hashFn : String → Except String String) (files : List FileInfo) :
    List String :=
  ((hash_ok hashFn files).map (fun m => m.hash)).dedup

/-- Lines 155-168: one `DuplicateGroup` per hash bucket with more than one
member; `size` and `potential_savings` use `files[0]`. -/
def make_group (h : String) (ms : List FileInfo) : Option DuplicateGroup :=
  match ms with
  | [] => none
  | f0 :: _ =>
    if 1 < ms.length then
      some { hash := h, size := f0.size, files := ms,
             total_size := (ms.map (fun f => f.size)).sum,
             potential_savings := (ms.map (fun f => f.size)).sum - f0.size }
    else none

/-- The fields of `ScanResult` (lines 34-42) determined by the duplicate
scan itself (timing and the echoed directory list are omitted). -/
structure ScanOutcome where
  total_files : Nat
  total_size : Nat
  duplicate_groups : List DuplicateGroup
  errors : List String
deriving Repr, DecidableEq

/-- Function `scan_duplicates` (lines 90-183), applied to the collected file list;
`hashFn` stands for `calculate_file_hash`. -/
def scan_duplicates (hashFn : String → Except String String)
    (files : List FileInfo) : ScanOutcome :=
  { total_files := files.length
    total_size := (files.map (fun f => f.size)).sum
    duplicate_groups :=
      (hashKeys hashFn files).filterMap (fun h => make_group h (hashBucket hashFn files h))
    errors := hash_errors hashFn files }

/-! ## Cleanup (`cleanup_duplicates` and helpers, lines 186-231, 379-489)

`osDelete` stands for the `powershell Remove-Item` process invocation in
`safe_delete_file`; the second component of each result below is the list
of paths actually handed to `osDelete` (the attempted OS deletions).  A
Rust panic is modelled as `Option.none`. -/

/-- Function `safe_delete_file` (lines 444-463): refuse critical files, otherwise
invoke OS deletion. -/
def safe_delete_file (osDelete : String → Except String Unit) (path : String) :
    Except String Unit × List String :=
  if is_critical_file path then
    (.error ("Attempting to delete critical file: " ++ path), [])
  else
    (osDelete path, [path])

/-- Insert `x` into `l` directly before the first element `y` with
`le x y`.  Auxiliary for `sortByLe`. -/
def insertBefore (le : FileInfo → FileInfo → Bool) (x : FileInfo) :
    List FileInfo → List FileInfo
  | [] => [x]
  | y :: ys => if le x y then x :: y :: ys else y :: insertBefore le x ys

/-- Stable insertion sort.  Rust's `Vec::sort_by` (used at lines 391 and
398) is a stable sort; for a total comparator a stable sort's output list
is uniquely determined, so this computes exactly what `sort_by` computes. -/
def sortByLe (le : FileInfo → FileInfo → Bool) : List FileInfo → List FileInfo
  | [] => []
  | x :: xs => insertBefore le x (sortByLe le xs)

/-- The keep/remove split computed by `process_duplicate_group`
(lines 387-422).  `none` models the `sorted_files[0]` panic on an empty
member list.  For `KeepNewest` the comparator is
`|a, b| b.modified.cmp(&a.modified)` (sort descending), for `KeepOldest`
`|a, b| a.modified.cmp(&b.modified)` (sort ascending). -/
def partition_group (group : DuplicateGroup) (strategy : KeepStrategy) :
    Option (List FileInfo × List FileInfo) :=
  match strategy with
  | .KeepNewest =>
    match sortByLe (fun a b => decide (b.modified ≤ a.modified)) group.files with
    | [] => none
    | k :: rest => some ([k], rest)
  | .KeepOldest =>
    match sortByLe (fun a b => decide (a.modified ≤ b.modified)) group.files with
    | [] => none
    | k :: rest => some ([k], rest)
  | .KeepInSystem =>
    some (group.files.filter (fun f => is_system_directory f.path),
          group.files.filter (fun f => !is_system_directory f.path))
  | .KeepInProgramFiles =>
    some (group.files.filter (fun f =>
            pathStartsWith f.path "C:\\Program Files" ||
            pathStartsWith f.path "C:\\Program Files (x86)"),
          group.files.filter (fun f =>
            !(pathStartsWith f.path "C:\\Program Files" ||
              pathStartsWith f.path "C:\\Program Files (x86)")))

/-- One step of the deletion loop (lines 428-438): success bumps the
counters, failure is only logged (`warn!`), never recorded. -/
def delete_step (osDelete : String → Except String Unit)
    (acc : Nat × Nat × List String) (f : FileInfo) : Nat × Nat × List String :=
  match safe_delete_file osDelete f.path with
  | (.ok _, inv) => (acc.1 + 1, acc.2.1 + f.size, acc.2.2 ++ inv)
  | (.error _, inv) => (acc.1, acc.2.1, acc.2.2 ++ inv)

/-- The deletion loop of `process_duplicate_group` (lines 424-440) over
`files_to_remove`: returns `(removed_count, freed_space, attempts)`. -/
def delete_files (osDelete : String → Except String Unit)
    (files : List FileInfo) : Nat × Nat × List String :=
  files.foldl (delete_step osDelete) (0, 0, [])

/-- Function `process_duplicate_group` (lines 379-441). -/
def process_duplicate_group (osDelete : String → Except String Unit)
    (group : DuplicateGroup) (strategy : KeepStrategy) :
    Option (Nat × Nat × List String) :=
  (partition_group group strategy).map (fun kr => delete_files osDelete kr.2)

/-- Function `create_cleanup_backup` (lines 466-489).  `createOk` models whether
`File::create(&backup_path)` succeeds, `finishOk` whether `zip.finish()`
succeeds; `ts` is the timestamp.  Per member, the source tolerates three
per-entry failures: `tokio::fs::read` failure (`if let Ok(content)` —
member skipped, modelled by `fsRead` returning `none`), `zip.start_file`
failure (`if let Ok(mut file_in_zip)` — member skipped, modelled by
`startOk`), and `std::io::copy` failure (`let _ = ...` — error discarded;
since the copy writes sequentially, the entry holds a prefix of the read
bytes, modelled as `c.take (copyLimit path)`; a full copy is
`copyLimit path ≥ c.length`).  On success it returns the backup path
together with the archive entries `(entry name, bytes written)`. -/
def create_cleanup_backup (fsRead : String → Option (List Nat))
    (startOk : String → Bool) (copyLimit : String → Nat)
    (createOk finishOk : Bool) (backupDir ts : String)
    (groups : List DuplicateGroup) :
    Except String (String × List (String × List Nat)) :=
  if createOk then
    if finishOk then
      .ok (backupDir ++ "\\cleanup_backup_" ++ ts ++ ".zip",
           (groups.flatMap (fun g => g.files)).filterMap
             (fun f =>
               match fsRead f.path with
               | none => none
               | some c =>
                 if startOk f.path then some (f.path, c.take (copyLimit f.path))
                 else none))
    else .error "zip finish failed"
  else .error "could not create backup archive file"

/-- The per-group loop of `cleanup_duplicates` (lines 215-225).  The
source's `Err` branch (line 221) is unreachable — every non-panicking path
of `process_duplicate_group` returns `Ok` — so no counterpart appears
here; a panic propagates as `none`. -/
def cleanup_groups (osDelete : String → Except String Unit)
    (strategy : KeepStrategy) :
    List DuplicateGroup → CleanupResult → List String →
    Option (CleanupResult × List String)
  | [], r, log => some (r, log)
  | g :: rest, r, log =>
    match process_duplicate_group osDelete g strategy with
    | none => none
    | some (removed, freed, inv) =>
      cleanup_groups osDelete strategy rest
        { r with files_removed := r.files_removed + removed,
                 space_freed := r.space_freed + freed }
        (log ++ inv)

/-- Function `cleanup_duplicates` (lines 186-231). -/
def cleanup_duplicates (osDelete : String → Except String Unit)
    (fsRead : String → Option (List Nat)) (startOk : String → Bool)
    (copyLimit : String → Nat) (createOk finishOk : Bool)
    (backupDir ts : String) (groups : List DuplicateGroup)
    (strategy : KeepStrategy) (create_backup : Bool) :
    Option (CleanupResult × List String) :=
  let base : CleanupResult :=
    { files_removed := 0, space_freed := 0, errors := [],
      backup_created := false, backup_path := none }
  if create_backup then
    match create_cleanup_backup fsRead startOk copyLimit createOk finishOk backupDir ts groups with
    | .error e =>
      some ({ base with errors := ["Failed to create backup: " ++ e] }, [])
    | .ok bp =>
      cleanup_groups osDelete strategy groups
        { base with backup_created := true, backup_path := some bp.1 } []
  else
    cleanup_groups osDelete strategy groups base []

/-! ## Tree walker (`collect_files`, lines 288-359) -/

/-- One regular-file entry yielded by the `WalkDir` traversal, together
with the outcome of `tokio::fs::metadata` on it (`none` = stat failure,
entry skipped). -/
structure RawFile where
  path : String
  meta : Option (Nat × Int)
deriving Repr, DecidableEq

/-- Field `FileManager::excluded_paths` (lines 72-78). -/
def excluded_paths : List String :=
  ["C:\\Windows\\System32", "C:\\Windows\\SysWOW64",
   "C:\\Program Files\\WindowsApps", "C:\\$Recycle.Bin",
   "C:\\System Volume Information"]

/-- Function `collect_files` (lines 288-359): an excluded directory contributes
nothing; otherwise each walked file is kept unless its stat failed, it is
larger than `max_file_size`, or it is classified system/critical. -/
def collect_files (directory : String) (entries : List RawFile) :
    List FileInfo :=
  if excluded_paths.any (fun ex => pathStartsWith directory ex) then []
  else
    entries.filterMap (fun e =>
      match e.meta with
      | none => none
      | some sm =>
        if max_file_size < sm.1 then none
        else if is_system_file e.path || is_critical_file e.path then none
        else some { path := e.path, size := sm.1, modified := sm.2,
                    hash := "", file_type := get_file_extension e.path,
                    is_system_file := is_system_file e.path,
                    is_critical := is_critical_file e.path })

/-! ## Supporting lemmas about the scan pipeline -/

lemma mem_sizeBucket {files : List FileInfo} {s : Nat} {f : FileInfo}
    (h : f ∈ sizeBucket files s) : f ∈ files ∧ f.size = s ∧ 0 < f.size := by
  unfold sizeBucket positiveFiles at h
  simp only [List.mem_filter, decide_eq_true_eq, beq_iff_eq] at h
  exact ⟨h.1.1, h.2, h.1.2⟩

lemma sizeBucket_length_le (files : List FileInfo) (s : Nat) :
    (sizeBucket files s).length ≤ files.countP (fun g => g.size == s) := by
  rw [List.countP_eq_length_filter]
  exact List.Sublist.length_le (List.Sublist.filter _ (List.filter_sublist files))

lemma mem_hash_candidates {files : List FileInfo} {c : FileInfo}
    (h : c ∈ hash_candidates files) :
    c ∈ files ∧ 0 < c.size ∧ 2 ≤ files.countP (fun g => g.size == c.size) := by
  unfold hash_candidates at h
  rw [List.mem_flatMap] at h
  obtain ⟨b, hb, hc⟩ := h
  rw [List.mem_filter] at hb
  obtain ⟨hb1, hb2⟩ := hb
  unfold size_groups at hb1
  rw [List.mem_map] at hb1
  obtain ⟨s, _, rfl⟩ := hb1
  obtain ⟨hmem, hsz, hpos⟩ := mem_sizeBucket hc
  simp only [decide_eq_true_eq] at hb2
  refine ⟨hmem, hpos, ?_⟩
  subst hsz
  exact le_trans hb2 (sizeBucket_length_le files c.size)

lemma mem_hash_ok {hashFn : String → Except String String}
    {files : List FileInfo} {m : FileInfo} (h : m ∈ hash_ok hashFn files) :
    ∃ f, f ∈ hash_candidates files ∧ hashFn f.path = .ok m.hash ∧
      m.path = f.path ∧ m.size = f.size := by
  unfold hash_ok at h
  rw [List.mem_filterMap] at h
  obtain ⟨f, hf, heq⟩ := h
  cases hh : hashFn f.path with
  | ok hv =>
    rw [hh] at heq
    simp only [Option.some.injEq] at heq
    subst heq
    exact ⟨f, hf, by rw [hh], rfl, rfl⟩
  | error e =>
    rw [hh] at heq
    simp at heq

lemma scan_group_mem {hashFn : String → Except String String}
    {files : List FileInfo} {grp : DuplicateGroup}
    (h : grp ∈ (scan_duplicates hashFn files).duplicate_groups) :
    1 < grp.files.length ∧
    grp.files = hashBucket hashFn files grp.hash ∧
    ∃ f0 tl, grp.files = f0 :: tl ∧ grp.size = f0.size := by
  unfold scan_duplicates at h
  simp only [List.mem_filterMap] at h
  obtain ⟨hk, _, hmk⟩ := h
  unfold make_group at hmk
  cases hb : hashBucket hashFn files hk with
  | nil => rw [hb] at hmk; simp at hmk
  | cons f0 tl =>
    rw [hb] at hmk
    dsimp only at hmk
    by_cases hlen : 1 < (f0 :: tl).length
    · rw [if_pos hlen] at hmk
      simp only [Option.some.injEq] at hmk
      subst hmk
      exact ⟨hlen, by rw [hb], f0, tl, rfl, rfl⟩
    · rw [if_neg hlen] at hmk
      cases hmk

lemma mem_group_files {hashFn : String → Except String String}
    {files : List FileInfo} {grp : DuplicateGroup} {m : FileInfo}
    (h : grp ∈ (scan_duplicates hashFn files).duplicate_groups)
    (hm : m ∈ grp.files) :
    m ∈ hash_ok hashFn files ∧ m.hash = grp.hash := by
  obtain ⟨_, hfiles, _⟩ := scan_group_mem h
  rw [hfiles] at hm
  unfold hashBucket at hm
  rw [List.mem_filter, beq_iff_eq] at hm
  exact hm

/-- Relation used to state collision-freeness of the hash function: two
hash invocations both succeeded and returned the same digest. -/
def sameOkHash : Except String String → Except String String → Bool
  | .ok a, .ok b => a == b
  | _, _ => false

/-- C1: for every set of scanned files, every `DuplicateGroup` emitted by
`scan_duplicates` has at least 2 members, and — provided the content hash
never collides across files of different sizes within the scanned set, the
property relied upon for SHA-256 — all members have identical size and
identical hash, equal to the group's `size` and `hash` fields. -/
theorem scan_groups_uniform (hashFn : String → Except String String)
    (files : List FileInfo)
    (hcoll : ∀ f ∈ files, ∀ g ∈ files,
      sameOkHash (hashFn f.path) (hashFn g.path) = true → f.size = g.size) :
    ∀ grp ∈ (scan_duplicates hashFn files).duplicate_groups,
      2 ≤ grp.files.length ∧
      ∀ m ∈ grp.files, m.size = grp.size ∧ m.hash = grp.hash := by
  intro grp hgrp
  obtain ⟨hlen, hfiles, f0, tl, hcons, hsize⟩ := scan_group_mem hgrp
  refine ⟨hlen, ?_⟩
  intro m hm
  have hf0mem : f0 ∈ grp.files := by rw [hcons]; exact List.mem_cons_self _ _
  obtain ⟨hmok, hmh⟩ := mem_group_files hgrp hm
  obtain ⟨h0ok, h0h⟩ := mem_group_files hgrp hf0mem
  obtain ⟨fm, hfm, hfmh, hfmp, hfms⟩ := mem_hash_ok hmok
  obtain ⟨g0, hg0, hg0h, hg0p, hg0s⟩ := mem_hash_ok h0ok
  have hsz : fm.size = g0.size := by
    refine hcoll fm (mem_hash_candidates hfm).1 g0 (mem_hash_candidates hg0).1 ?_
    rw [hfmh, hg0h, hmh, h0h]
    simp [sameOkHash]
  exact ⟨by rw [hfms, hsz, ← hg0s, ← hsize], hmh⟩

/-- Concrete scanned set used by several witnesses: two 1000-byte files
with equal content hash, one 1000-byte file with a different hash, one
empty file and one file of unique size. -/
def wfA : FileInfo :=
  { path := "C:\\Users\\u\\a.txt", size := 1000, modified := 1, hash := "",
    file_type := "txt", is_system_file := false, is_critical := false }

def wfB : FileInfo :=
  { path := "C:\\Users\\u\\b.txt", size := 1000, modified := 2, hash := "",
    file_type := "txt", is_system_file := false, is_critical := false }

def wfC : FileInfo :=
  { path := "C:\\Users\\u\\c.txt", size := 1000, modified := 3, hash := "",
    file_type := "txt", is_system_file := false, is_critical := false }

def wfZero : FileInfo :=
  { path := "C:\\Users\\u\\z.txt", size := 0, modified := 0, hash := "",
    file_type := "txt", is_system_file := false, is_critical := false }

def wfUniq : FileInfo :=
  { path := "C:\\Users\\u\\u.txt", size := 7, modified := 0, hash := "",
    file_type := "txt", is_system_file := false, is_critical := false }

/-- Hash function for the witness scan: `a.txt` and `b.txt` share digest
`H1`; every other path gets its own digest. -/
def wHash : String → Except String String :=
  fun p =>
    if p = "C:\\Users\\u\\c.txt" then .ok "H2"
    else if p = "C:\\Users\\u\\z.txt" then .ok "H0"
    else if p = "C:\\Users\\u\\u.txt" then .ok "H3"
    else .ok "H1"

/-- Witness for C1 at a concrete five-file scan. -/
theorem scan_groups_uniform_witness :
    (∀ f ∈ [wfA, wfB, wfC, wfZero, wfUniq], ∀ g ∈ [wfA, wfB, wfC, wfZero, wfUniq],
      sameOkHash (wHash f.path) (wHash g.path) = true → f.size = g.size) ∧
    (∀ grp ∈ (scan_duplicates wHash [wfA, wfB, wfC, wfZero, wfUniq]).duplicate_groups,
      2 ≤ grp.files.length ∧
      ∀ m ∈ grp.files, m.size = grp.size ∧ m.hash = grp.hash) :=
  ⟨by decide, scan_groups_uniform wHash [wfA, wfB, wfC, wfZero, wfUniq] (by decide)⟩

/-- C5: a zero-byte file, or a file whose exact size is shared by no other
scanned file, is never passed to the fingerprint engine
(`hash_candidates` is precisely the set of files the hash loop feeds to
`calculate_file_hash`) and never occurs in any emitted group. -/
theorem unique_size_never_hashed (hashFn : String → Except String String)
    (files : List FileInfo) (f : FileInfo) (_hf : f ∈ files)
    (huniq : f.size = 0 ∨ files.countP (fun g => g.size == f.size) = 1) :
    (∀ c ∈ hash_candidates files, ¬(c.path = f.path ∧ c.size = f.size)) ∧
    (∀ grp ∈ (scan_duplicates hashFn files).duplicate_groups,
      ∀ m ∈ grp.files, ¬(m.path = f.path ∧ m.size = f.size)) := by
  have key : ∀ c ∈ hash_candidates files, ¬(c.path = f.path ∧ c.size = f.size) := by
    intro c hc ⟨_, hsz⟩
    obtain ⟨_, hpos, hcount⟩ := mem_hash_candidates hc
    cases huniq with
    | inl h0 => rw [hsz, h0] at hpos; exact Nat.lt_irrefl 0 hpos
    | inr h1 => rw [hsz] at hcount; omega
  refine ⟨key, ?_⟩
  intro grp hgrp m hm ⟨hp, hs⟩
  obtain ⟨hmok, _⟩ := mem_group_files hgrp hm
  obtain ⟨c, hc, _, hcp, hcs⟩ := mem_hash_ok hmok
  exact key c hc ⟨by rw [← hcp, hp], by rw [← hcs, hs]⟩

/-- Witness for C5: in the concrete five-file scan, neither the empty
file nor the unique-size file is hashed or grouped. -/
theorem unique_size_never_hashed_witness :
    wfUniq ∈ [wfA, wfB, wfC, wfZero, wfUniq] ∧
    ([wfA, wfB, wfC, wfZero, wfUniq].countP (fun g => g.size == wfUniq.size) = 1) ∧
    ((∀ c ∈ hash_candidates [wfA, wfB, wfC, wfZero, wfUniq],
        ¬(c.path = wfUniq.path ∧ c.size = wfUniq.size)) ∧
     (∀ grp ∈ (scan_duplicates wHash [wfA, wfB, wfC, wfZero, wfUniq]).duplicate_groups,
        ∀ m ∈ grp.files, ¬(m.path = wfUniq.path ∧ m.size = wfUniq.size))) :=
  ⟨by decide, by decide,
   unique_size_never_hashed wHash [wfA, wfB, wfC, wfZero, wfUniq] wfUniq
     (by decide) (Or.inr (by decide))⟩

/-! ## Tree-walker exclusion (C8) -/

/-- C8: every `FileInfo` emitted by `collect_files` is classified neither
system nor critical (both by its stored flags and by re-applying the
classifiers to its path — such files are skipped entirely), and its size
is at most the 100 MiB ceiling. -/
theorem collect_files_excludes (directory : String) (entries : List RawFile) :
    ∀ f ∈ collect_files directory entries,
      f.is_system_file = false ∧ f.is_critical = false ∧
      is_system_file f.path = false ∧ is_critical_file f.path = false ∧
      f.size ≤ max_file_size := by
  intro f hf
  unfold collect_files at hf
  by_cases hex : excluded_paths.any (fun ex => pathStartsWith directory ex)
  · rw [if_pos hex] at hf
    cases hf
  · rw [if_neg hex] at hf
    rw [List.mem_filterMap] at hf
    obtain ⟨e, _, he⟩ := hf
    cases hm : e.meta with
    | none => rw [hm] at he; cases he
    | some sm =>
      rw [hm] at he
      dsimp only at he
      by_cases hbig : max_file_size < sm.1
      · rw [if_pos hbig] at he; cases he
      · rw [if_neg hbig] at he
        by_cases hsys : is_system_file e.path || is_critical_file e.path
        · rw [if_pos hsys] at he; cases he
        · rw [if_neg hsys] at he
          simp only [Option.some.injEq] at he
          subst he
          simp only [Bool.or_eq_true, not_or, Bool.not_eq_true] at hsys
          exact ⟨hsys.1, hsys.2, hsys.1, hsys.2, Nat.le_of_not_lt hbig⟩

/-- Witness for C8 at a concrete walk: one ordinary file survives a walk
that also yields a critical-path file, an oversized file and a file whose
stat failed. -/
theorem collect_files_excludes_witness :
    ({ path := "C:\\Users\\u\\notes.txt", size := 10, modified := 5, hash := "",
       file_type := "txt", is_system_file := false, is_critical := false } : FileInfo) ∈
      collect_files "C:\\Users\\u"
        [{ path := "C:\\Windows\\System32\\drivers\\x.sys", meta := some (10, 5) },
         { path := "C:\\Users\\u\\big.bin", meta := some (104857601, 5) },
         { path := "C:\\Users\\u\\gone.txt", meta := none },
         { path := "C:\\Users\\u\\notes.txt", meta := some (10, 5) }] ∧
    (({ path := "C:\\Users\\u\\notes.txt", size := 10, modified := 5, hash := "",
        file_type := "txt", is_system_file := false, is_critical := false } : FileInfo).is_system_file = false ∧
     ({ path := "C:\\Users\\u\\notes.txt", size := 10, modified := 5, hash := "",
        file_type := "txt", is_system_file := false, is_critical := false } : FileInfo).is_critical = false ∧
     is_system_file "C:\\Users\\u\\notes.txt" = false ∧
     is_critical_file "C:\\Users\\u\\notes.txt" = false ∧
     ({ path := "C:\\Users\\u\\notes.txt", size := 10, modified := 5, hash := "",
        file_type := "txt", is_system_file := false, is_critical := false } : FileInfo).size ≤ max_file_size) :=
  ⟨by decide,
   collect_files_excludes "C:\\Users\\u"
     [{ path := "C:\\Windows\\System32\\drivers\\x.sys", meta := some (10, 5) },
      { path := "C:\\Users\\u\\big.bin", meta := some (104857601, 5) },
      { path := "C:\\Users\\u\\gone.txt", meta := none },
      { path := "C:\\Users\\u\\notes.txt", meta := some (10, 5) }]
     _ (by decide)⟩

/-! ## Safe deletion and the critical-extension check (C3) -/

/-- C3 (code bug): the `critical_extensions` entries carry a leading dot
while Rust `Path::extension()` never does, so the extension check of
`is_critical_file` can never fire: a `.dll` file outside the critical
directories is not classified critical and `safe_delete_file` hands it to
the OS deleter, deleting it.  The path-prefix half of the guard does work:
a file under `C:\Windows\System32` is refused. -/
theorem critical_extension_not_protected :
    is_critical_file "C:\\Users\\u\\copy.dll" = false ∧
    safe_delete_file (fun _ => .ok ()) "C:\\Users\\u\\copy.dll" =
      (.ok (), ["C:\\Users\\u\\copy.dll"]) ∧
    is_critical_file "C:\\Windows\\System32\\kernel32.dll" = true ∧
    (safe_delete_file (fun _ => .ok ()) "C:\\Windows\\System32\\kernel32.dll").2 = [] := by
  refine ⟨by decide, ?_, by decide, ?_⟩
  · unfold safe_delete_file
    rw [if_neg (by decide)]
  · unfold safe_delete_file
    rw [if_pos (by decide)]

/-! ## Panic on an empty duplicate group (C9) -/

/-- C9 (code bug): `process_duplicate_group` indexes `sorted_files[0]`,
which panics when a group arrives with an empty member list, so
`cleanup_duplicates` does not return a structured result there (modelled
as `none`). -/
theorem cleanup_panics_on_empty_group :
    cleanup_duplicates (fun _ => .ok ()) (fun _ => some []) (fun _ => true)
      (fun _ => 8192) true true "C:\\Backups" "20250101_000000"
      [{ hash := "h", size := 0, files := [], total_size := 0, potential_savings := 0 }]
      .KeepNewest false = none := by
  rfl

/-! ## Backup failure aborts cleanup (C2) -/

/-- C2: when a backup is requested and the archive cannot be created, the
cleanup returns `backup_created = false`, `files_removed = 0`, a non-empty
error list, and no OS deletion is ever attempted (empty invocation log). -/
theorem cleanup_backup_failure_no_deletion
    (osDelete : String → Except String Unit)
    (fsRead : String → Option (List Nat)) (startOk : String → Bool)
    (copyLimit : String → Nat) (createOk finishOk : Bool)
    (backupDir ts : String) (groups : List DuplicateGroup)
    (strategy : KeepStrategy) (e : String)
    (hfail : create_cleanup_backup fsRead startOk copyLimit createOk finishOk
      backupDir ts groups = .error e) :
    ∃ r, cleanup_duplicates osDelete fsRead startOk copyLimit createOk finishOk
            backupDir ts groups strategy true = some (r, []) ∧
      r.backup_created = false ∧ r.files_removed = 0 ∧ r.errors ≠ [] := by
  refine ⟨{ files_removed := 0, space_freed := 0,
            errors := ["Failed to create backup: " ++ e],
            backup_created := false, backup_path := none }, ?_, rfl, rfl, by simp⟩
  unfold cleanup_duplicates
  rw [if_pos rfl, hfail]

/-- Witness for C2: a concrete run where `File::create` on the archive
fails; the two-member group is left untouched. -/
theorem cleanup_backup_failure_no_deletion_witness :
    create_cleanup_backup (fun _ => some []) (fun _ => true) (fun _ => 8192)
        false true "C:\\Backups" "t"
        [{ hash := "H1", size := 1000, files := [wfA, wfB],
           total_size := 2000, potential_savings := 1000 }] =
      .error "could not create backup archive file" ∧
    (∃ r, cleanup_duplicates (fun _ => .ok ()) (fun _ => some []) (fun _ => true)
            (fun _ => 8192) false true "C:\\Backups" "t"
            [{ hash := "H1", size := 1000, files := [wfA, wfB],
               total_size := 2000, potential_savings := 1000 }]
            .KeepNewest true = some (r, []) ∧
      r.backup_created = false ∧ r.files_removed = 0 ∧ r.errors ≠ []) :=
  ⟨by rfl,
   cleanup_backup_failure_no_deletion (fun _ => .ok ()) (fun _ => some [])
     (fun _ => true) (fun _ => 8192) false true "C:\\Backups" "t"
     [{ hash := "H1", size := 1000, files := [wfA, wfB],
        total_size := 2000, potential_savings := 1000 }]
     .KeepNewest "could not create backup archive file" (by rfl)⟩

/-! ## Behaviour of the deletion loop (C6, C10) -/

/-- Whether an OS deletion outcome is a success. -/
def exceptOk : Except String Unit → Bool
  | .ok _ => true
  | .error _ => false

/-- The removal set the retention step slates for a group (empty on the
panicking empty-group case, which callers exclude separately). -/
def removeSet (strategy : KeepStrategy) (g : DuplicateGroup) : List FileInfo :=
  match partition_group g strategy with
  | some kr => kr.2
  | none => []

/-- The paths the deletion loop hands to the OS deleter for one group:
every slated member that is not classified critical, in order —
independent of any deletion outcome. -/
def attemptsOf (strategy : KeepStrategy) (g : DuplicateGroup) : List String :=
  ((removeSet strategy g).filter (fun f => !is_critical_file f.path)).map
    (fun f => f.path)

/-- How many slated members of one group are successfully deleted. -/
def removedOf (osDelete : String → Except String Unit)
    (strategy : KeepStrategy) (g : DuplicateGroup) : Nat :=
  ((removeSet strategy g).filter
    (fun f => !is_critical_file f.path && exceptOk (osDelete f.path))).length

lemma delete_foldl_spec (osDelete : String → Except String Unit)
    (files : List FileInfo) (acc : Nat × Nat × List String) :
    (files.foldl (delete_step osDelete) acc).1 =
      acc.1 + (files.filter
        (fun f => !is_critical_file f.path && exceptOk (osDelete f.path))).length ∧
    (files.foldl (delete_step osDelete) acc).2.2 =
      acc.2.2 ++ (files.filter (fun f => !is_critical_file f.path)).map
        (fun f => f.path) := by
  induction files generalizing acc with
  | nil => simp
  | cons f fs ih =>
    rw [List.foldl_cons]
    obtain ⟨ih1, ih2⟩ := ih (delete_step osDelete acc f)
    rw [ih1, ih2]
    by_cases hc : is_critical_file f.path
    · have hstep : delete_step osDelete acc f = acc := by
        unfold delete_step safe_delete_file
        rw [if_pos hc]
        simp
      rw [hstep]
      simp [hc]
    · cases hos : osDelete f.path with
      | ok u =>
        have hstep : delete_step osDelete acc f =
            (acc.1 + 1, acc.2.1 + f.size, acc.2.2 ++ [f.path]) := by
          unfold delete_step safe_delete_file
          rw [if_neg hc, hos]
        rw [hstep]
        simp [hc, hos, exceptOk, List.filter_cons]
        omega
      | error e =>
        have hstep : delete_step osDelete acc f =
            (acc.1, acc.2.1, acc.2.2 ++ [f.path]) := by
          unfold delete_step safe_delete_file
          rw [if_neg hc, hos]
        rw [hstep]
        simp [hc, hos, exceptOk, List.filter_cons]

lemma insertBefore_ne_nil (le : FileInfo → FileInfo → Bool) (x : FileInfo)
    (l : List FileInfo) : insertBefore le x l ≠ [] := by
  unfold insertBefore
  cases l with
  | nil => simp
  | cons y ys => dsimp only; split <;> simp

lemma sortByLe_eq_nil {le : FileInfo → FileInfo → Bool} {l : List FileInfo}
    (h : sortByLe le l = []) : l = [] := by
  cases l with
  | nil => rfl
  | cons x xs => exact absurd h (insertBefore_ne_nil le x (sortByLe le xs))

lemma delete_files_removed (osDelete : String → Except String Unit)
    (files : List FileInfo) :
    (delete_files osDelete files).1 =
      (files.filter
        (fun f => !is_critical_file f.path && exceptOk (osDelete f.path))).length := by
  have h := (delete_foldl_spec osDelete files (0, 0, [])).1
  simpa [delete_files] using h

lemma delete_files_attempts (osDelete : String → Except String Unit)
    (files : List FileInfo) :
    (delete_files osDelete files).2.2 =
      (files.filter (fun f => !is_critical_file f.path)).map (fun f => f.path) := by
  have h := (delete_foldl_spec osDelete files (0, 0, [])).2
  simpa [delete_files] using h

lemma partition_group_isSome (g : DuplicateGroup) (strategy : KeepStrategy)
    (hne : g.files ≠ []) : ∃ kr, partition_group g strategy = some kr := by
  cases strategy with
  | KeepNewest =>
    cases hs : sortByLe (fun a b => decide (b.modified ≤ a.modified)) g.files with
    | nil => exact absurd (sortByLe_eq_nil hs) hne
    | cons k rest =>
      refine ⟨([k], rest), ?_⟩
      simp only [partition_group]
      rw [hs]
  | KeepOldest =>
    cases hs : sortByLe (fun a b => decide (a.modified ≤ b.modified)) g.files with
    | nil => exact absurd (sortByLe_eq_nil hs) hne
    | cons k rest =>
      refine ⟨([k], rest), ?_⟩
      simp only [partition_group]
      rw [hs]
  | KeepInSystem => exact ⟨_, rfl⟩
  | KeepInProgramFiles => exact ⟨_, rfl⟩

lemma cleanup_groups_spec (osDelete : String → Except String Unit)
    (strategy : KeepStrategy) (groups : List DuplicateGroup)
    (r : CleanupResult) (log : List String)
    (hne : ∀ g ∈ groups, g.files ≠ []) :
    ∃ r' log', cleanup_groups osDelete strategy groups r log = some (r', log') ∧
      r'.errors = r.errors ∧ r'.backup_created = r.backup_created ∧
      r'.backup_path = r.backup_path ∧
      r'.files_removed =
        r.files_removed + (groups.map (removedOf osDelete strategy)).sum ∧
      log' = log ++ groups.flatMap (attemptsOf strategy) := by
  induction groups generalizing r log with
  | nil => exact ⟨r, log, rfl, rfl, rfl, rfl, by simp, by simp⟩
  | cons g gs ih =>
    obtain ⟨kr, hkr⟩ := partition_group_isSome g strategy
      (hne g (List.mem_cons_self _ _))
    have hproc : process_duplicate_group osDelete g strategy =
        some (delete_files osDelete kr.2) := by
      unfold process_duplicate_group
      rw [hkr]
      rfl
    have hrs : removeSet strategy g = kr.2 := by unfold removeSet; rw [hkr]
    have hrem : (delete_files osDelete kr.2).1 = removedOf osDelete strategy g := by
      rw [delete_files_removed]
      unfold removedOf
      rw [hrs]
    have hatt : (delete_files osDelete kr.2).2.2 = attemptsOf strategy g := by
      rw [delete_files_attempts]
      unfold attemptsOf
      rw [hrs]
    obtain ⟨r', log', hrun, he, hb, hp, hfr, hlog⟩ :=
      ih { r with
            files_removed := r.files_removed + (delete_files osDelete kr.2).1,
            space_freed := r.space_freed + (delete_files osDelete kr.2).2.1 }
         (log ++ (delete_files osDelete kr.2).2.2)
         (fun g' hg' => hne g' (List.mem_cons_of_mem _ hg'))
    refine ⟨r', log', ?_, he, hb, hp, ?_, ?_⟩
    · unfold cleanup_groups
      rw [hproc]
      exact hrun
    · rw [hfr]
      simp only [List.map_cons, List.sum_cons, hrem]
      omega
    · rw [hlog]
      simp only [List.flatMap_cons, hatt, List.append_assoc]

/-- C10: when backup creation does not fail and every group is non-empty,
the cleanup result's error list is empty — per-file deletion failures are
never recorded, only reflected in `files_removed` counting successes
alone. -/
theorem cleanup_errors_empty (osDelete : String → Except String Unit)
    (fsRead : String → Option (List Nat)) (startOk : String → Bool)
    (copyLimit : String → Nat) (createOk finishOk : Bool)
    (backupDir ts : String) (groups : List DuplicateGroup)
    (strategy : KeepStrategy) (cb : Bool)
    (hbk : cb = true →
      ∃ bp, create_cleanup_backup fsRead startOk copyLimit createOk finishOk
        backupDir ts groups = .ok bp)
    (hne : ∀ g ∈ groups, g.files ≠ []) :
    ∃ r log, cleanup_duplicates osDelete fsRead startOk copyLimit createOk
        finishOk backupDir ts groups strategy cb = some (r, log) ∧
      r.errors = [] ∧
      r.files_removed = (groups.map (removedOf osDelete strategy)).sum := by
  cases cb with
  | false =>
    obtain ⟨r', log', hrun, he, _, _, hfr, _⟩ :=
      cleanup_groups_spec osDelete strategy groups
        { files_removed := 0, space_freed := 0, errors := [],
          backup_created := false, backup_path := none } [] hne
    exact ⟨r', log', hrun, he, by rw [hfr]; simp⟩
  | true =>
    obtain ⟨bp, hbp⟩ := hbk rfl
    obtain ⟨r', log', hrun, he, _, _, hfr, _⟩ :=
      cleanup_groups_spec osDelete strategy groups
        { files_removed := 0, space_freed := 0, errors := [],
          backup_created := true, backup_path := some bp.1 } [] hne
    refine ⟨r', log', ?_, he, by rw [hfr]; simp⟩
    unfold cleanup_duplicates
    rw [if_pos rfl, hbp]
    exact hrun

/-- Witness for C10: a cleanup run containing a failing deletion still
returns an empty error list. -/
theorem cleanup_errors_empty_witness :
    (∀ g ∈ [({ hash := "H1", size := 1000, files := [wfA, wfB],
               total_size := 2000, potential_savings := 1000 } : DuplicateGroup)],
       g.files ≠ []) ∧
    (∃ r log, cleanup_duplicates (fun _ => .error "Access is denied")
        (fun _ => some []) (fun _ => true) (fun _ => 8192) true true
        "C:\\Backups" "t"
        [{ hash := "H1", size := 1000, files := [wfA, wfB],
           total_size := 2000, potential_savings := 1000 }]
        .KeepNewest false = some (r, log) ∧
      r.errors = [] ∧
      r.files_removed =
        ([({ hash := "H1", size := 1000, files := [wfA, wfB],
             total_size := 2000, potential_savings := 1000 } : DuplicateGroup)].map
          (removedOf (fun _ => .error "Access is denied") .KeepNewest)).sum) :=
  ⟨by decide,
   cleanup_errors_empty (fun _ => .error "Access is denied") (fun _ => some [])
     (fun _ => true) (fun _ => 8192) true true "C:\\Backups" "t"
     [{ hash := "H1", size := 1000, files := [wfA, wfB],
        total_size := 2000, potential_savings := 1000 }]
     .KeepNewest false (fun h => absurd h (by decide)) (by decide)⟩

/-- C6 counterexample: a cleanup run in which the OS deletion of the
slated file `a.txt` fails (every deletion returns "Access is denied"; the
invocation log shows the attempt was made and `files_removed = 0` shows it
did not succeed), yet the returned error list is empty — the failure is
not recorded, contradicting the claim. -/
theorem deletion_failure_not_recorded :
    cleanup_duplicates (fun _ => .error "Access is denied") (fun _ => some [])
      (fun _ => true) (fun _ => 8192) true true "C:\\Backups" "t"
      [{ hash := "H1", size := 1000, files := [wfA, wfB],
         total_size := 2000, potential_savings := 1000 }]
      .KeepNewest false =
    some ({ files_removed := 0, space_freed := 0, errors := [],
            backup_created := false, backup_path := none },
          ["C:\\Users\\u\\a.txt"]) := by
  decide

/-- C6 (amended): an individual deletion failure does not stop processing
— every non-critical slated member of every group is handed to the OS
deleter, whatever any earlier deletion outcome was (the invocation log
depends only on the groups and strategy) — but the failure is only
logged, never recorded in the result's error list. -/
theorem cleanup_continues_despite_failures
    (osDelete : String → Except String Unit)
    (fsRead : String → Option (List Nat)) (startOk : String → Bool)
    (copyLimit : String → Nat) (createOk finishOk : Bool)
    (backupDir ts : String) (groups : List DuplicateGroup)
    (strategy : KeepStrategy)
    (hne : ∀ g ∈ groups, g.files ≠ []) :
    ∃ r log, cleanup_duplicates osDelete fsRead startOk copyLimit createOk
        finishOk backupDir ts groups strategy false = some (r, log) ∧
      r.errors = [] ∧
      log = groups.flatMap (attemptsOf strategy) := by
  obtain ⟨r', log', hrun, he, _, _, _, hlog⟩ :=
    cleanup_groups_spec osDelete strategy groups
      { files_removed := 0, space_freed := 0, errors := [],
        backup_created := false, backup_path := none } [] hne
  exact ⟨r', log', hrun, he, by rw [hlog]; simp⟩

/-- Witness for C6 (amended): with a deleter that fails on `a.txt` but
would succeed elsewhere, both groups' removal sets are still attempted in
full. -/
theorem cleanup_continues_despite_failures_witness :
    (∀ g ∈ [({ hash := "H1", size := 1000, files := [wfA, wfB],
               total_size := 2000, potential_savings := 1000 } : DuplicateGroup),
            ({ hash := "H3", size := 7, files := [wfUniq, wfC],
               total_size := 1007, potential_savings := 7 } : DuplicateGroup)],
       g.files ≠ []) ∧
    (∃ r log, cleanup_duplicates
        (fun p => if p = "C:\\Users\\u\\a.txt" then .error "Access is denied" else .ok ())
        (fun _ => some []) (fun _ => true) (fun _ => 8192) true true
        "C:\\Backups" "t"
        [{ hash := "H1", size := 1000, files := [wfA, wfB],
           total_size := 2000, potential_savings := 1000 },
         { hash := "H3", size := 7, files := [wfUniq, wfC],
           total_size := 1007, potential_savings := 7 }]
        .KeepNewest false = some (r, log) ∧
      r.errors = [] ∧
      log = [({ hash := "H1", size := 1000, files := [wfA, wfB],
                total_size := 2000, potential_savings := 1000 } : DuplicateGroup),
             ({ hash := "H3", size := 7, files := [wfUniq, wfC],
                total_size := 1007, potential_savings := 7 } : DuplicateGroup)].flatMap
              (attemptsOf .KeepNewest)) :=
  ⟨by decide,
   cleanup_continues_despite_failures
     (fun p => if p = "C:\\Users\\u\\a.txt" then .error "Access is denied" else .ok ())
     (fun _ => some []) (fun _ => true) (fun _ => 8192) true true
     "C:\\Backups" "t"
     [{ hash := "H1", size := 1000, files := [wfA, wfB],
        total_size := 2000, potential_savings := 1000 },
      { hash := "H3", size := 7, files := [wfUniq, wfC],
        total_size := 1007, potential_savings := 7 }]
     .KeepNewest (by decide)⟩

/-! ## Backup archive contents (C7) -/

/-- Two-member group shared by the C7 statements: `wfB` is newer, so
`KeepNewest` keeps `wfB` and slates only `wfA` for removal. -/
def wGroupAB : DuplicateGroup :=
  { hash := "H1", size := 1000, files := [wfA, wfB],
    total_size := 2000, potential_savings := 1000 }

/-- C7 counterexample: `create_cleanup_backup` iterates over every member
of every group, so the archive also contains an entry for `b.txt`, the
member `KeepNewest` keeps — the claim that the archive holds entries for
exactly the members slated for removal is false. -/
theorem backup_contains_kept_member :
    partition_group wGroupAB .KeepNewest = some ([wfB], [wfA]) ∧
    create_cleanup_backup (fun _ => some [7]) (fun _ => true) (fun _ => 8192)
        true true "C:\\Backups" "t" [wGroupAB] =
      .ok ("C:\\Backups\\cleanup_backup_t.zip",
           [("C:\\Users\\u\\a.txt", [7]), ("C:\\Users\\u\\b.txt", [7])]) :=
  ⟨by decide, by rfl⟩

/-- C7 (amended): when the archive is created, it contains an entry for
exactly those group members — kept and removed alike, the Retention
Policy is never consulted — whose bytes could be read and whose zip entry
could be opened; each entry holds the prefix of the member's read bytes
that the error-discarding `io::copy` wrote.  Unreadable members and
members whose `zip.start_file` fails are silently skipped, and nothing
else is archived. -/
theorem backup_archives_all_members (fsRead : String → Option (List Nat))
    (startOk : String → Bool) (copyLimit : String → Nat)
    (createOk finishOk : Bool) (backupDir ts : String)
    (groups : List DuplicateGroup) (p : String)
    (entries : List (String × List Nat))
    (h : create_cleanup_backup fsRead startOk copyLimit createOk finishOk
      backupDir ts groups = .ok (p, entries)) :
    (∀ g ∈ groups, ∀ m ∈ g.files, ∀ c, fsRead m.path = some c →
      startOk m.path = true →
      (m.path, c.take (copyLimit m.path)) ∈ entries) ∧
    (∀ ent ∈ entries, ∃ g ∈ groups, ∃ m ∈ g.files, ent.1 = m.path ∧
      startOk m.path = true ∧
      ∃ c, fsRead m.path = some c ∧ ent.2 = c.take (copyLimit m.path)) := by
  unfold create_cleanup_backup at h
  cases createOk with
  | false => simp at h
  | true =>
    cases finishOk with
    | false => simp at h
    | true =>
      simp only [if_true, Except.ok.injEq, Prod.mk.injEq] at h
      obtain ⟨-, hent⟩ := h
      subst hent
      constructor
      · intro g hg m hm c hc hst
        rw [List.mem_filterMap]
        refine ⟨m, ?_, ?_⟩
        · rw [List.mem_flatMap]
          exact ⟨g, hg, hm⟩
        · dsimp only
          rw [hc]
          dsimp only
          rw [if_pos hst]
      · intro ent hent
        rw [List.mem_filterMap] at hent
        obtain ⟨f, hf, hfe⟩ := hent
        rw [List.mem_flatMap] at hf
        obtain ⟨g, hg, hfg⟩ := hf
        cases hr : fsRead f.path with
        | none => rw [hr] at hfe; cases hfe
        | some c =>
          rw [hr] at hfe
          dsimp only at hfe
          by_cases hst : startOk f.path = true
          · rw [if_pos hst] at hfe
            simp only [Option.some.injEq] at hfe
            subst hfe
            exact ⟨g, hg, f, hfg, rfl, hst, c, hr, rfl⟩
          · rw [if_neg hst] at hfe
            cases hfe

/-- Witness for C7 (amended): a concrete archive over `wGroupAB` in which
`zip.start_file` fails for `a.txt` (entry skipped) and `io::copy` stops
after one byte (entry truncated). -/
theorem backup_archives_all_members_witness :
    create_cleanup_backup (fun _ => some [7, 8])
        (fun q => q != "C:\\Users\\u\\a.txt") (fun _ => 1)
        true true "C:\\Backups" "t" [wGroupAB] =
      .ok ("C:\\Backups\\cleanup_backup_t.zip", [("C:\\Users\\u\\b.txt", [7])]) ∧
    ((∀ g ∈ [wGroupAB], ∀ m ∈ g.files, ∀ c,
        (fun (_ : String) => some [7, 8]) m.path = some c →
        (fun q => q != "C:\\Users\\u\\a.txt") m.path = true →
        (m.path, c.take ((fun (_ : String) => 1) m.path)) ∈
          [("C:\\Users\\u\\b.txt", [7])]) ∧
     (∀ ent ∈ [("C:\\Users\\u\\b.txt", [7])],
        ∃ g ∈ [wGroupAB], ∃ m ∈ g.files, ent.1 = m.path ∧
          (fun q => q != "C:\\Users\\u\\a.txt") m.path = true ∧
          ∃ c, (fun (_ : String) => some [7, 8]) m.path = some c ∧
            ent.2 = c.take ((fun (_ : String) => 1) m.path))) :=
  ⟨by rfl,
   backup_archives_all_members (fun _ => some [7, 8])
     (fun q => q != "C:\\Users\\u\\a.txt") (fun _ => 1) true true
     "C:\\Backups" "t" [wGroupAB] "C:\\Backups\\cleanup_backup_t.zip"
     [("C:\\Users\\u\\b.txt", [7])] (by rfl)⟩

/-! ## Retention policy (C4) -/

lemma insertBefore_perm (le : FileInfo → FileInfo → Bool) (x : FileInfo)
    (l : List FileInfo) : (insertBefore le x l).Perm (x :: l) := by
  induction l with
  | nil => exact List.Perm.refl _
  | cons y ys ih =>
    unfold insertBefore
    by_cases h : le x y = true
    · rw [if_pos h]
    · rw [if_neg h]
      exact (List.Perm.cons y ih).trans (List.Perm.swap x y ys)

lemma sortByLe_perm (le : FileInfo → FileInfo → Bool) (l : List FileInfo) :
    (sortByLe le l).Perm l := by
  induction l with
  | nil => exact List.Perm.refl _
  | cons x xs ih =>
    exact (insertBefore_perm le x (sortByLe le xs)).trans (List.Perm.cons x ih)

/-- The head of the stable sort is the first element of the input that is
`le`-minimal: it is `le` every element, and every element strictly before
it in the input fails `le` against it. -/
lemma sortByLe_head_spec (le : FileInfo → FileInfo → Bool)
    (htrans : ∀ a b c, le a b = true → le b c = true → le a c = true)
    (htotal : ∀ a b, le a b = true ∨ le b a = true)
    {l : List FileInfo} {m : FileInfo} {rest : List FileInfo}
    (h : sortByLe le l = m :: rest) :
    (∀ x ∈ l, le m x = true) ∧
    ∃ pre post, l = pre ++ m :: post ∧ ∀ x ∈ pre, le x m = false := by
  induction l generalizing m rest with
  | nil => cases h
  | cons x xs ih =>
    cases hs : sortByLe le xs with
    | nil =>
      have hxs : xs = [] := sortByLe_eq_nil hs
      subst hxs
      have h' : [x] = m :: rest := h
      injection h' with h1 h2
      subst h1
      refine ⟨?_, [], [], rfl, by simp⟩
      intro y hy
      rw [List.mem_singleton] at hy
      subst hy
      exact (htotal y y).elim id id
    | cons m' rest' =>
      have h' : insertBefore le x (sortByLe le xs) = m :: rest := h
      rw [hs] at h'
      unfold insertBefore at h'
      by_cases hc : le x m' = true
      · rw [if_pos hc] at h'
        injection h' with h1 h2
        subst h1
        obtain ⟨ih1, -⟩ := ih hs
        refine ⟨?_, [], xs, rfl, by simp⟩
        intro y hy
        rw [List.mem_cons] at hy
        cases hy with
        | inl hyx => subst hyx; exact (htotal y y).elim id id
        | inr hyxs => exact htrans x m' y hc (ih1 y hyxs)
      · rw [if_neg hc] at h'
        injection h' with h1 h2
        subst h1
        obtain ⟨ih1, pre', post', hxs, ihpre⟩ := ih hs
        have hxf : le x m' = false := by
          cases hLE : le x m' with
          | true => exact absurd hLE hc
          | false => rfl
        refine ⟨?_, x :: pre', post', by rw [hxs]; rfl, ?_⟩
        · intro y hy
          rw [List.mem_cons] at hy
          cases hy with
          | inl hyx => subst hyx; exact (htotal y m').resolve_left hc
          | inr hyxs => exact ih1 y hyxs
        · intro y hy
          rw [List.mem_cons] at hy
          cases hy with
          | inl hyx => subst hyx; exact hxf
          | inr hyp => exact ihpre y hyp

/-- C4: for every duplicate group and strategy, the retention step splits
the member list into a keep list and a remove list whose concatenation is
a permutation of the members (so nothing is lost or duplicated), the two
are disjoint when the members are distinct, and for `KeepNewest`
(resp. `KeepOldest`) exactly one member is kept: the first member, in
original order, with maximal (resp. minimal) modification time — ties
broken by original order, as Rust's stable `sort_by` does. -/
theorem partition_group_partitions (group : DuplicateGroup)
    (strategy : KeepStrategy) (hne : group.files ≠ []) :
    ∃ keep remove, partition_group group strategy = some (keep, remove) ∧
      (keep ++ remove).Perm group.files ∧
      (group.files.Nodup → ∀ x ∈ keep, x ∉ remove) ∧
      (strategy = .KeepNewest →
        ∃ m pre post, keep = [m] ∧ group.files = pre ++ m :: post ∧
          (∀ x ∈ group.files, x.modified ≤ m.modified) ∧
          (∀ x ∈ pre, x.modified < m.modified)) ∧
      (strategy = .KeepOldest →
        ∃ m pre post, keep = [m] ∧ group.files = pre ++ m :: post ∧
          (∀ x ∈ group.files, m.modified ≤ x.modified) ∧
          (∀ x ∈ pre, m.modified < x.modified)) := by
  cases strategy with
  | KeepNewest =>
    cases hs : sortByLe (fun a b => decide (b.modified ≤ a.modified)) group.files with
    | nil => exact absurd (sortByLe_eq_nil hs) hne
    | cons m rest =>
      have heval : partition_group group .KeepNewest = some ([m], rest) := by
        simp only [partition_group]
        rw [hs]
      have hperm : ((m :: rest)).Perm group.files :=
        hs ▸ sortByLe_perm (fun a b => decide (b.modified ≤ a.modified)) group.files
      obtain ⟨hall, pre, post, hdec, hpre⟩ :=
        sortByLe_head_spec (fun a b => decide (b.modified ≤ a.modified))
          (fun a b c h1 h2 => by
            simp only [decide_eq_true_eq] at h1 h2 ⊢
            omega)
          (fun a b => by
            simp only [decide_eq_true_eq]
            omega)
          hs
      refine ⟨[m], rest, heval, hperm, ?_, ?_, fun hco => absurd hco (by decide)⟩
      · intro hnd x hx hxr
        rw [List.mem_singleton] at hx
        have hnd' : (m :: rest).Nodup := (hperm.symm).nodup hnd
        rw [List.nodup_cons] at hnd'
        rw [hx] at hxr
        exact hnd'.1 hxr
      · intro _
        refine ⟨m, pre, post, rfl, hdec, ?_, ?_⟩
        · intro x hx
          have hx' := hall x hx
          simpa only [decide_eq_true_eq] using hx'
        · intro x hx
          have hx' := hpre x hx
          simp only [decide_eq_false_iff_not] at hx'
          omega
  | KeepOldest =>
    cases hs : sortByLe (fun a b => decide (a.modified ≤ b.modified)) group.files with
    | nil => exact absurd (sortByLe_eq_nil hs) hne
    | cons m rest =>
      have heval : partition_group group .KeepOldest = some ([m], rest) := by
        simp only [partition_group]
        rw [hs]
      have hperm : ((m :: rest)).Perm group.files :=
        hs ▸ sortByLe_perm (fun a b => decide (a.modified ≤ b.modified)) group.files
      obtain ⟨hall, pre, post, hdec, hpre⟩ :=
        sortByLe_head_spec (fun a b => decide (a.modified ≤ b.modified))
          (fun a b c h1 h2 => by
            simp only [decide_eq_true_eq] at h1 h2 ⊢
            omega)
          (fun a b => by
            simp only [decide_eq_true_eq]
            omega)
          hs
      refine ⟨[m], rest, heval, hperm, ?_, fun hco => absurd hco (by decide), ?_⟩
      · intro hnd x hx hxr
        rw [List.mem_singleton] at hx
        have hnd' : (m :: rest).Nodup := (hperm.symm).nodup hnd
        rw [List.nodup_cons] at hnd'
        rw [hx] at hxr
        exact hnd'.1 hxr
      · intro _
        refine ⟨m, pre, post, rfl, hdec, ?_, ?_⟩
        · intro x hx
          have hx' := hall x hx
          simpa only [decide_eq_true_eq] using hx'
        · intro x hx
          have hx' := hpre x hx
          simp only [decide_eq_false_iff_not] at hx'
          omega
  | KeepInSystem =>
    refine ⟨_, _, rfl, List.filter_append_perm _ group.files, ?_,
      fun hco => absurd hco (by decide), fun hco => absurd hco (by decide)⟩
    intro _ x hxk hxr
    rw [List.mem_filter] at hxk hxr
    have h1 := hxk.2
    have h2 := hxr.2
    rw [h1] at h2
    simp at h2
  | KeepInProgramFiles =>
    refine ⟨_, _, rfl, List.filter_append_perm _ group.files, ?_,
      fun hco => absurd hco (by decide), fun hco => absurd hco (by decide)⟩
    intro _ x hxk hxr
    rw [List.mem_filter] at hxk hxr
    have h1 := hxk.2
    have h2 := hxr.2
    rw [h1] at h2
    simp at h2

/-- Witness for C4: the two-member group with a modification-time tie,
under `KeepNewest` — the first member in original order is kept. -/
theorem partition_group_partitions_witness :
    (({ hash := "H1", size := 1000,
        files := [wfA, { wfB with modified := 1 }],
        total_size := 2000, potential_savings := 1000 } : DuplicateGroup).files ≠ []) ∧
    (∃ keep remove,
      partition_group
        { hash := "H1", size := 1000,
          files := [wfA, { wfB with modified := 1 }],
          total_size := 2000, potential_savings := 1000 } .KeepNewest =
        some (keep, remove) ∧
      (keep ++ remove).Perm [wfA, { wfB with modified := 1 }] ∧
      ([wfA, { wfB with modified := 1 }].Nodup → ∀ x ∈ keep, x ∉ remove) ∧
      (KeepStrategy.KeepNewest = .KeepNewest →
        ∃ m pre post, keep = [m] ∧
          [wfA, { wfB with modified := 1 }] = pre ++ m :: post ∧
          (∀ x ∈ [wfA, { wfB with modified := 1 }], x.modified ≤ m.modified) ∧
          (∀ x ∈ pre, x.modified < m.modified)) ∧
      (KeepStrategy.KeepNewest = .KeepOldest →
        ∃ m pre post, keep = [m] ∧
          [wfA, { wfB with modified := 1 }] = pre ++ m :: post ∧
          (∀ x ∈ [wfA, { wfB with modified := 1 }], m.modified ≤ x.modified) ∧
          (∀ x ∈ pre, m.modified < x.modified))) :=
  ⟨by decide,
   partition_group_partitions
     { hash := "H1", size := 1000,
       files := [wfA, { wfB with modified := 1 }],
       total_size := 2000, potential_savings := 1000 } .KeepNewest (by decide)⟩

end WinOptimizer
